import Mathlib

/-
Verification development for the MDP value-iteration solver of this
repository (mdp_framework/agent/value_iteration_error_rate.py).

The Python module defines a class Agent whose constructor runs synchronous
value-iteration sweeps over a finite MDP supplied by an Environment
collaborator, stops via an error-rate bound, and then extracts a greedy
policy.  We embed the module shallowly:

  * States and actions are opaque types with decidable equality.
  * Python dictionaries are association lists (List (key, value)); indexing
    a dictionary is dictGet, and a missing key is the KeyError exception,
    modelled with Except.
  * Python floats are rationals.  The float special value -inf that appears
    as the initial best-action utility is modelled as the Option value none
    (any rational exceeds it, exactly as any finite float exceeds -inf);
    the initial +inf of the maximum-change variable is likewise none.
    The only place a genuine -inf float can be STORED is the sweep value of
    a non-terminal state when the action set is empty; that float lies
    outside the rational value model, and the sweep reports the
    model-boundary marker negInfUtility there (the Bellman best-action
    computation itself, which is where the claims about empty action sets
    live, is modelled exactly).
  * Division by zero in the while-condition (discount factor 0) is the
    ZeroDivisionError exception, checked before the first sweep exactly as
    Python evaluates the condition before the first iteration.
  * The while loop is given explicit fuel; exhausted fuel is the
    model-boundary marker outOfFuel.  The print call and the
    displayValueFunction observer call in the loop body are side effects
    with no influence on solver state and are omitted.
-/

namespace MDPVI

/-- Exceptions the Python code can raise (keyError, zeroDivisionError),
plus two model-boundary markers: negInfUtility marks a stored -inf float
that lies outside the rational value model, and outOfFuel marks exhaustion
of the explicit fuel given to the while loop. -/
inductive PyError where
  | keyError
  | zeroDivisionError
  | negInfUtility
  | outOfFuel
  deriving DecidableEq, Repr

/-- Environment collaborator: the MDP definition consumed by the solver.
stateSet, actionSet and finalStateSet are Python sets, kept here as lists
to fix the enumeration order the solver iterates in; transition s a is the
dictionary returned by environment.transition(s, a), as an association
list. -/
structure Env (S A : Type) where
  stateSet : List S
  actionSet : List A
  finalStateSet : List S
  reward : S → ℚ
  transition : S → A → List (S × ℚ)

variable {S A : Type} [DecidableEq S]

/-- Python dictionary indexing d[k], returning none when the key is absent
(the caller turns none into KeyError). The first entry with the key wins,
matching dictionaries whose keys are unique. -/
def dictGet {β : Type} : List (S × β) → S → Option β
  | [], _ => none
  | (k, v) :: rest, s => if k = s then some v else dictGet rest s

/-- Inner loop of actionMaximumExpectedUtility (line 92-93 of the source):
for next_state in stateSet, add transition(state, action)[next_state] *
valueUtility[next_state] to the accumulator; either indexing raises
KeyError when the key is absent. -/
def expectedUtilityAux (t : List (S × ℚ)) (V : List (S × ℚ)) :
    List S → ℚ → Except PyError ℚ
  | [], acc => .ok acc
  | s' :: rest, acc =>
    match dictGet t s' with
    | none => .error .keyError
    | some p =>
      match dictGet V s' with
      | none => .error .keyError
      | some v => expectedUtilityAux t V rest (acc + p * v)

/-- Expected utility of one action at one state: the sum
of T(s, a, s2) * V(s2) over every s2 in stateSet, started at 0. -/
def expectedUtility (env : Env S A) (V : List (S × ℚ)) (s : S) (a : A) :
    Except PyError ℚ :=
  expectedUtilityAux (env.transition s a) V env.stateSet 0

/-- Outer loop of actionMaximumExpectedUtility (lines 87-98): fold over
actionSet carrying best_action (initially None) and best_action_utility
(initially -inf, modelled as none); an action replaces the best when its
expected utility is strictly greater. -/
def amEUAux (env : Env S A) (V : List (S × ℚ)) (s : S) :
    List A → Option A → Option ℚ → Except PyError (Option A × Option ℚ)
  | [], best, bestU => .ok (best, bestU)
  | a :: rest, best, bestU =>
    match expectedUtility env V s a with
    | .error e => .error e
    | .ok u =>
      if (match bestU with
          | none => true
          | some b => decide (b < u)) then
        amEUAux env V s rest (some a) (some u)
      else
        amEUAux env V s rest best bestU

/-- Agent.actionMaximumExpectedUtility: the best action and its expected
utility under the value function V. Returns (none, none) when the action
set is empty, mirroring the Python return value (None, -inf). -/
def actionMaximumExpectedUtility (env : Env S A) (V : List (S × ℚ)) (s : S) :
    Except PyError (Option A × Option ℚ) :=
  amEUAux env V s env.actionSet none none

/-- Value stored for one state by one sweep (lines 50-59): the reward for a
final state; otherwise reward s + discount * best expected utility. The
stored -inf float of the empty-action-set case is outside the rational
model (negInfUtility). -/
def bellmanValue (env : Env S A) (γ : ℚ) (V : List (S × ℚ)) (s : S) :
    Except PyError ℚ :=
  if s ∈ env.finalStateSet then .ok (env.reward s)
  else
    match actionMaximumExpectedUtility env V s with
    | .error e => .error e
    | .ok (_, none) => .error .negInfUtility
    | .ok (_, some meu) => .ok (env.reward s + γ * meu)

/-- One sweep of the while-loop body (lines 45-64): build the fresh
dictionary next_value_utility over stateSet in order, tracking the maximum
change delta over non-terminal states (a final state stores its reward and
contributes no delta; a non-terminal state stores reward + discount * best
expected utility and contributes abs (V[s] - new value)). -/
def sweepAux (env : Env S A) (γ : ℚ) (V : List (S × ℚ)) :
    List S → List (S × ℚ) → ℚ → Except PyError (List (S × ℚ) × ℚ)
  | [], acc, dcur => .ok (acc, dcur)
  | s :: rest, acc, dcur =>
    if s ∈ env.finalStateSet then
      sweepAux env γ V rest (acc ++ [(s, env.reward s)]) dcur
    else
      match actionMaximumExpectedUtility env V s with
      | .error e => .error e
      | .ok (_, none) => .error .negInfUtility
      | .ok (_, some meu) =>
        let nv := env.reward s + γ * meu
        match dictGet V s with
        | none => .error .keyError
        | some ov =>
          let d := |ov - nv|
          sweepAux env γ V rest (acc ++ [(s, nv)])
            (if dcur < d then d else dcur)

/-- One full sweep over stateSet, from the empty fresh dictionary and
delta 0. -/
def sweep (env : Env S A) (γ : ℚ) (V : List (S × ℚ)) :
    Except PyError (List (S × ℚ) × ℚ) :=
  sweepAux env γ V env.stateSet [] 0

/-- While-condition of line 43: continue while maximum_change_utility
exceeds the threshold. none is the initial value float inf, which exceeds
every threshold. -/
def contCond (threshold : ℚ) : Option ℚ → Bool
  | none => true
  | some d => decide (threshold < d)

/-- Initial value function of line 35: the dictionary mapping every state
of stateSet to 0. -/
def initVF (env : Env S A) : List (S × ℚ) :=
  env.stateSet.map (fun s => (s, (0 : ℚ)))

/-- The while loop of lines 43-72, with explicit fuel: test the condition;
if it holds, run one sweep and recurse on the new value function and its
delta; otherwise return the current value function. -/
def solveLoop (env : Env S A) (γ : ℚ) (threshold : ℚ) :
    ℕ → List (S × ℚ) → Option ℚ → Except PyError (List (S × ℚ))
  | 0, V, delta =>
    if contCond threshold delta then .error .outOfFuel else .ok V
  | fuel + 1, V, delta =>
    if contCond threshold delta then
      match sweep env γ V with
      | .error e => .error e
      | .ok (V', d') => solveLoop env γ threshold fuel V' (some d')
    else .ok V

/-- The convergence phase of Agent.__init__ (lines 35-72): the while
condition divides by the discount factor, so discount factor 0 raises
ZeroDivisionError before any sweep; otherwise run the loop from the
all-zero value function with maximum_change_utility = inf, with threshold
maximumErrorRate * (1 - discountFactor) / discountFactor. -/
def solveVF (env : Env S A) (γ : ℚ) (ε : ℚ) (fuel : ℕ) :
    Except PyError (List (S × ℚ)) :=
  if γ = 0 then .error .zeroDivisionError
  else solveLoop env γ (ε * (1 - γ) / γ) fuel (initVF env) none

/-- Policy-construction loop of lines 75-78: for every state of stateSet,
in order, store the best action under the frozen value function. -/
def buildPolicyAux (env : Env S A) (V : List (S × ℚ)) :
    List S → List (S × Option A) → Except PyError (List (S × Option A))
  | [], acc => .ok acc
  | s :: rest, acc =>
    match actionMaximumExpectedUtility env V s with
    | .error e => .error e
    | .ok (a, _) => buildPolicyAux env V rest (acc ++ [(s, a)])

/-- The policy dictionary built after convergence. -/
def buildPolicy (env : Env S A) (V : List (S × ℚ)) :
    Except PyError (List (S × Option A)) :=
  buildPolicyAux env V env.stateSet []

/-- The state the constructor leaves behind: the frozen value function
self.valueUtility and the policy dictionary self.policy. -/
structure AgentT (S A : Type) where
  valueUtility : List (S × ℚ)
  policy : List (S × Option A)
  deriving DecidableEq

/-- Agent.__init__ (lines 28-78): run the convergence loop, then build the
policy from the frozen value function. -/
def agentInit (env : Env S A) (γ : ℚ) (ε : ℚ) (fuel : ℕ) :
    Except PyError (AgentT S A) :=
  match solveVF env γ ε fuel with
  | .error e => .error e
  | .ok V =>
    match buildPolicy env V with
    | .error e => .error e
    | .ok p => .ok ⟨V, p⟩

/-- Agent.getAction (lines 101-106): recompute
actionMaximumExpectedUtility at the given state against the frozen value
function and return its action component. -/
def getAction (env : Env S A) (ag : AgentT S A) (s : S) :
    Except PyError (Option A) :=
  match actionMaximumExpectedUtility env ag.valueUtility s with
  | .error e => .error e
  | .ok (a, _) => .ok a

/-- Value functions along the sweeps: traj n is the pair (value function,
maximum_change_utility) after n sweeps, starting from the all-zero value
function and delta = inf (none). -/
def traj (env : Env S A) (γ : ℚ) : ℕ → Except PyError (List (S × ℚ) × Option ℚ)
  | 0 => .ok (initVF env, none)
  | n + 1 =>
    match traj env γ n with
    | .error e => .error e
    | .ok (V, _) =>
      match sweep env γ V with
      | .error e => .error e
      | .ok (V', d') => .ok (V', some d')

/-- Scenario A of the spec: states s0 = 0 (non-terminal, reward 0) and
s1 = 1 (terminal, reward 10); the single action 0 moves s0 to s1 with
probability 1 (and keeps s1 at s1, so that the policy pass over every
state can index the transition dictionary). -/
def envA : Env ℕ ℕ where
  stateSet := [0, 1]
  actionSet := [0]
  finalStateSet := [1]
  reward := fun s => if s = 1 then 10 else 0
  transition := fun _ _ => [(0, 0), (1, 1)]

/-- Environment whose transition dictionary omits a state of stateSet:
state 0 is non-terminal, the dictionary returned for every (state, action)
holds only state 1, and it is a probability-1 move to the terminal
state 1. -/
def envC2 : Env ℕ ℕ where
  stateSet := [0, 1]
  actionSet := [0]
  finalStateSet := [1]
  reward := fun s => if s = 1 then 10 else 0
  transition := fun _ _ => [(1, 1)]

/-- Scenario D of the spec: a single non-terminal state with an empty
action set. -/
def envD : Env ℕ ℕ where
  stateSet := [0]
  actionSet := []
  finalStateSet := []
  reward := fun _ => 0
  transition := fun _ _ => []

/-- Scenario C of the spec: the transition probabilities for (state 0,
action 0) sum to one half instead of 1. -/
def envC6 : Env ℕ ℕ where
  stateSet := [0, 1]
  actionSet := [0]
  finalStateSet := [1]
  reward := fun s => if s = 1 then 10 else 0
  transition := fun _ _ => [(0, 1/4), (1, 1/4)]

/-- Sum of the probabilities in the dictionary returned by the transition
function for one (state, action) pair. -/
def transitionProbSum (env : Env S A) (s : S) (a : A) : ℚ :=
  ((env.transition s a).map Prod.snd).sum

/-- The agent Scenario A produces: value function frozen after the single
sweep the stopping rule allows, and the greedy policy over it. -/
def agentA : AgentT ℕ ℕ :=
  ⟨[(0, 0), (1, 10)], [(0, some 0), (1, some 0)]⟩

/-- Looking up a key of an association list aligned entrywise with its key
list finds a value satisfying the alignment property. -/
lemma forall2_dictGet {β : Type} (Q : S → β → Prop) :
    ∀ {keys : List S} {l : List (S × β)},
      List.Forall₂ (fun s p => p.1 = s ∧ Q s p.2) keys l →
      ∀ {s : S}, s ∈ keys → ∃ v, dictGet l s = some v ∧ Q s v := by
  intro keys l h
  induction h with
  | nil => intro s hs; cases hs
  | @cons k p keys2 l2 hp hrest ih =>
    intro s hs
    obtain ⟨hk, hQ⟩ := hp
    rcases List.mem_cons.mp hs with heq | hmem
    · subst heq
      refine ⟨p.2, ?_, hk ▸ hQ⟩
      simp [dictGet, hk]
    · by_cases hps : p.1 = s
      · refine ⟨p.2, ?_, ?_⟩
        · simp [dictGet, hps]
        · have : k = s := hk.symm.trans hps
          exact this ▸ hQ
      · have hrec := ih hmem
        obtain ⟨v, hv, hQv⟩ := hrec
        refine ⟨v, ?_, hQv⟩
        simp [dictGet, hps, hv]

/-- Structure of a partial sweep: on success, the fresh dictionary is the
accumulator followed by one entry per remaining state, each entry holding
exactly the Bellman value of its state under the PREVIOUS value function
V. -/
lemma sweepAux_ok (env : Env S A) (γ : ℚ) (V : List (S × ℚ)) :
    ∀ (rest : List S) (acc : List (S × ℚ)) (dcur dd : ℚ) (l : List (S × ℚ)),
      sweepAux env γ V rest acc dcur = .ok (l, dd) →
      ∃ tail, l = acc ++ tail ∧
        List.Forall₂ (fun s p => p.1 = s ∧ bellmanValue env γ V s = .ok p.2)
          rest tail := by
  intro rest
  induction rest with
  | nil =>
    intro acc dcur dd l h
    simp only [sweepAux] at h
    obtain ⟨h1, _⟩ := Prod.mk.injEq .. ▸ Except.ok.inj h
    exact ⟨[], by simp [h1], List.Forall₂.nil⟩
  | cons s rest ih =>
    intro acc dcur dd l h
    simp only [sweepAux] at h
    by_cases hf : s ∈ env.finalStateSet
    · rw [if_pos hf] at h
      obtain ⟨tail, hl, hF⟩ := ih _ _ _ _ h
      refine ⟨(s, env.reward s) :: tail, by simp [hl], ?_⟩
      exact List.Forall₂.cons ⟨rfl, by simp [bellmanValue, hf]⟩ hF
    · rw [if_neg hf] at h
      cases hA : actionMaximumExpectedUtility env V s with
      | error e => rw [hA] at h; simp at h
      | ok pr =>
        rw [hA] at h
        obtain ⟨oa, ou⟩ := pr
        cases ou with
        | none => simp at h
        | some meu =>
          simp only at h
          cases hV : dictGet V s with
          | none => rw [hV] at h; simp at h
          | some ov =>
            rw [hV] at h
            simp only at h
            obtain ⟨tail, hl, hF⟩ := ih _ _ _ _ h
            refine ⟨(s, env.reward s + γ * meu) :: tail, by simp [hl], ?_⟩
            exact List.Forall₂.cons ⟨rfl, by simp [bellmanValue, hf, hA]⟩ hF

/-- Structure of one full sweep: each entry of the produced dictionary is
the Bellman value of its state under the previous value function. -/
lemma sweep_ok (env : Env S A) (γ : ℚ) (V : List (S × ℚ))
    (l : List (S × ℚ)) (dd : ℚ) (h : sweep env γ V = .ok (l, dd)) :
    List.Forall₂ (fun s p => p.1 = s ∧ bellmanValue env γ V s = .ok p.2)
      env.stateSet l := by
  obtain ⟨tail, hl, hF⟩ := sweepAux_ok env γ V env.stateSet [] 0 dd l h
  simpa [hl] using hF

/-- Structure of the policy-construction loop: on success, the policy
dictionary is the accumulator followed by one entry per remaining state,
each entry holding the best action of its state under the frozen value
function. -/
lemma buildPolicyAux_ok (env : Env S A) (V : List (S × ℚ)) :
    ∀ (rest : List S) (acc : List (S × Option A)) (p : List (S × Option A)),
      buildPolicyAux env V rest acc = .ok p →
      ∃ tail, p = acc ++ tail ∧
        List.Forall₂
          (fun s q => q.1 = s ∧
            ∃ u, actionMaximumExpectedUtility env V s = .ok (q.2, u))
          rest tail := by
  intro rest
  induction rest with
  | nil =>
    intro acc p h
    simp only [buildPolicyAux] at h
    exact ⟨[], by simp [Except.ok.inj h], List.Forall₂.nil⟩
  | cons s rest ih =>
    intro acc p h
    simp only [buildPolicyAux] at h
    cases hA : actionMaximumExpectedUtility env V s with
    | error e => rw [hA] at h; simp at h
    | ok pr =>
      rw [hA] at h
      obtain ⟨oa, ou⟩ := pr
      simp only at h
      obtain ⟨tail, hl, hF⟩ := ih _ _ h
      refine ⟨(s, oa) :: tail, by simp [hl], ?_⟩
      exact List.Forall₂.cons ⟨rfl, ⟨ou, hA⟩⟩ hF

/-- A policy built by the constructor stores, for every state of stateSet,
the best action under the frozen value function. -/
lemma buildPolicy_lookup (env : Env S A) (V : List (S × ℚ))
    (p : List (S × Option A)) (h : buildPolicy env V = .ok p)
    (s : S) (hs : s ∈ env.stateSet) :
    ∃ oa u, actionMaximumExpectedUtility env V s = .ok (oa, u) ∧
      dictGet p s = some oa := by
  obtain ⟨tail, hl, hF⟩ := buildPolicyAux_ok env V env.stateSet [] p h
  have hF2 : List.Forall₂
      (fun s q => q.1 = s ∧
        ∃ u, actionMaximumExpectedUtility env V s = .ok (q.2, u))
      env.stateSet p := by simpa [hl] using hF
  obtain ⟨oa, hlook, u, hu⟩ :=
    forall2_dictGet
      (fun s oa => ∃ u, actionMaximumExpectedUtility env V s = .ok (oa, u))
      hF2 hs
  exact ⟨oa, u, hu, hlook⟩

/-- Once the while-condition fails, the loop returns the current value
function untouched, whatever fuel remains. -/
lemma solveLoop_stopped (env : Env S A) (γ th : ℚ) (fuel : ℕ)
    (V : List (S × ℚ)) (d : Option ℚ) (h : contCond th d = false) :
    solveLoop env γ th fuel V d = .ok V := by
  cases fuel <;> simp [solveLoop, h]

/-- A successful sweep count includes all successful earlier counts. -/
lemma traj_ok_le (env : Env S A) (γ : ℚ) :
    ∀ (n k : ℕ) (p : List (S × ℚ) × Option ℚ), k ≤ n →
      traj env γ n = .ok p → ∃ q, traj env γ k = .ok q := by
  intro n
  induction n with
  | zero =>
    intro k p hk h
    interval_cases k
    exact ⟨p, h⟩
  | succ n ih =>
    intro k p hk h
    by_cases hkn : k = n + 1
    · exact hkn ▸ ⟨p, h⟩
    · have hk2 : k ≤ n := by omega
      simp only [traj] at h
      cases ht : traj env γ n with
      | error e => rw [ht] at h; simp at h
      | ok q => exact ih k q hk2 ht

/-- Unfolding one step of the trajectory from a successful point. -/
lemma traj_succ (env : Env S A) (γ : ℚ) (n : ℕ) (V : List (S × ℚ))
    (d : Option ℚ) (V2 : List (S × ℚ)) (d2 : ℚ)
    (h : traj env γ n = .ok (V, d)) (hs : sweep env γ V = .ok (V2, d2)) :
    traj env γ (n + 1) = .ok (V2, some d2) := by
  simp [traj, h, hs]

/-- If the trajectory first leaves the while-condition after k + m sweeps,
the loop started at the point reached after k sweeps, with fuel at least
m, returns the value function of sweep k + m. -/
lemma solveLoop_of_traj (env : Env S A) (γ th : ℚ) :
    ∀ (m k fuel : ℕ) (V : List (S × ℚ)) (d : Option ℚ)
      (W : List (S × ℚ)) (dn : Option ℚ),
      traj env γ k = .ok (V, d) →
      traj env γ (k + m) = .ok (W, dn) →
      contCond th dn = false →
      (∀ j p, j < k + m → traj env γ j = .ok p → contCond th p.2 = true) →
      m ≤ fuel →
      solveLoop env γ th fuel V d = .ok W := by
  intro m
  induction m with
  | zero =>
    intro k fuel V d W dn h1 h2 h3 _ _
    rw [Nat.add_zero, h1] at h2
    obtain ⟨hVW, hddn⟩ := Prod.mk.injEq .. ▸ Except.ok.inj h2
    rw [hVW]
    exact solveLoop_stopped env γ th fuel W d (hddn ▸ h3)
  | succ m ih =>
    intro k fuel V d W dn h1 h2 h3 hall hfuel
    have hcond : contCond th d = true := hall k (V, d) (by omega) h1
    obtain ⟨f, rfl⟩ : ∃ f, fuel = f + 1 := ⟨fuel - 1, by omega⟩
    obtain ⟨q, hq⟩ :=
      traj_ok_le env γ (k + (m + 1)) (k + 1) (W, dn) (by omega) h2
    cases hs : sweep env γ V with
    | error e =>
      have : traj env γ (k + 1) = .error e := by simp [traj, h1, hs]
      rw [this] at hq
      simp at hq
    | ok pr =>
      obtain ⟨V2, d2⟩ := pr
      have hstep := traj_succ env γ k V d V2 d2 h1 hs
      have hrw : k + (m + 1) = (k + 1) + m := by omega
      rw [hrw] at h2 hall
      have hrun : solveLoop env γ th (f + 1) V d =
          solveLoop env γ th f V2 (some d2) := by
        simp [solveLoop, hcond, hs]
      rw [hrun]
      exact ih (k + 1) f V2 (some d2) W dn hstep h2 h3 hall (by omega)

/-- If the loop, started at the point reached after k sweeps, returns a
value function, then some k + m is the first sweep count at which the
while-condition fails, and the returned value function is that of sweep
k + m. -/
lemma solveLoop_to_traj (env : Env S A) (γ th : ℚ) :
    ∀ (fuel k : ℕ) (V : List (S × ℚ)) (d : Option ℚ) (W : List (S × ℚ)),
      solveLoop env γ th fuel V d = .ok W →
      traj env γ k = .ok (V, d) →
      ∃ m, m ≤ fuel ∧ ∃ dm, traj env γ (k + m) = .ok (W, dm) ∧
        contCond th dm = false ∧
        ∀ j p, k ≤ j → j < k + m → traj env γ j = .ok p →
          contCond th p.2 = true := by
  intro fuel
  induction fuel with
  | zero =>
    intro k V d W hs ht
    cases hc : contCond th d with
    | false =>
      simp only [solveLoop, hc, Bool.false_eq_true, if_false] at hs
      refine ⟨0, le_refl 0, d, ?_, hc, ?_⟩
      · rw [Nat.add_zero, ht, Except.ok.inj hs]
      · intro j p _ hj _
        omega
    | true => simp [solveLoop, hc] at hs
  | succ f ih =>
    intro k V d W hs ht
    cases hc : contCond th d with
    | false =>
      simp only [solveLoop, hc, Bool.false_eq_true, if_false] at hs
      refine ⟨0, by omega, d, ?_, hc, ?_⟩
      · rw [Nat.add_zero, ht, Except.ok.inj hs]
      · intro j p _ hj _
        omega
    | true =>
      simp only [solveLoop, hc, if_true] at hs
      cases hsw : sweep env γ V with
      | error e => rw [hsw] at hs; simp at hs
      | ok pr =>
        obtain ⟨V2, d2⟩ := pr
        rw [hsw] at hs
        simp only at hs
        have hstep := traj_succ env γ k V d V2 d2 ht hsw
        obtain ⟨m, hm, dm, htm, hcm, hallm⟩ := ih (k + 1) V2 (some d2) W hs hstep
        refine ⟨m + 1, by omega, dm, ?_, hcm, ?_⟩
        · have hrw : k + (m + 1) = (k + 1) + m := by omega
          rw [hrw]
          exact htm
        · intro j p hkj hjlt htj
          by_cases hjk : j = k
          · subst hjk
            have hpd : p = (V, d) := Except.ok.inj (htj.symm.trans ht)
            rw [hpd]
            exact hc
          · exact hallm j p (by omega) (by omega) htj

/-- Keys of a dictionary aligned entrywise with a key list are that key
list, in order. -/
lemma forall2_keys {β : Type} (Q : S → β → Prop) :
    ∀ {keys : List S} {l : List (S × β)},
      List.Forall₂ (fun s p => p.1 = s ∧ Q s p.2) keys l →
      l.map Prod.fst = keys := by
  intro keys l h
  induction h with
  | nil => rfl
  | cons hp _ ih => simp [ih, hp.1]

/-- C7: for every MDP with 0 < discountFactor < 1 and maximumErrorRate
greater than 0, the sweep loop continues exactly while the sweep delta
(the maximum absolute value change over non-terminal states, as tracked by
sweepAux) exceeds maximumErrorRate * (1 - discountFactor) / discountFactor,
and it stops at the first sweep count n whose delta fails that condition,
returning the value function of sweep n: the loop result is the value
function of the least trajectory point whose continuation condition is
false, and of nothing else. -/
theorem stopping_rule_iff (env : Env S A) (γ ε : ℚ) (fuel : ℕ)
    (W : List (S × ℚ)) (hγ0 : 0 < γ) (hγ1 : γ < 1) (hε : 0 < ε) :
    solveVF env γ ε fuel = .ok W ↔
      ∃ n, n ≤ fuel ∧ ∃ d, traj env γ n = .ok (W, d) ∧
        contCond (ε * (1 - γ) / γ) d = false ∧
        ∀ k p, k < n → traj env γ k = .ok p →
          contCond (ε * (1 - γ) / γ) p.2 = true := by
  have hγne : γ ≠ 0 := ne_of_gt hγ0
  constructor
  · intro h
    simp only [solveVF, if_neg hγne] at h
    obtain ⟨m, hm, dm, htm, hcm, hall⟩ :=
      solveLoop_to_traj env γ (ε * (1 - γ) / γ) fuel 0 (initVF env) none W h rfl
    refine ⟨m, hm, dm, by simpa using htm, hcm, ?_⟩
    intro k p hk htk
    exact hall k p (by omega) (by omega) htk
  · rintro ⟨n, hn, d, htn, hcn, hall⟩
    simp only [solveVF, if_neg hγne]
    refine solveLoop_of_traj env γ (ε * (1 - γ) / γ) n 0 fuel (initVF env)
      none W d rfl (by simpa using htn) hcn ?_ hn
    intro j p hj htj
    exact hall j p (by omega) htj

/-- C8: for every final state s and every sweep count n at least 1, the
value function after n sweeps stores exactly reward s for s, whatever the
discount factor and the other states hold. -/
theorem terminal_pinned (env : Env S A) (γ : ℚ) (n : ℕ) (V : List (S × ℚ))
    (d : Option ℚ) (s : S) (hn : 1 ≤ n) (h : traj env γ n = .ok (V, d))
    (hfin : s ∈ env.finalStateSet) (hs : s ∈ env.stateSet) :
    dictGet V s = some (env.reward s) := by
  obtain ⟨m, rfl⟩ : ∃ m, n = m + 1 := ⟨n - 1, by omega⟩
  simp only [traj] at h
  cases ht : traj env γ m with
  | error e => rw [ht] at h; simp at h
  | ok q =>
    rw [ht] at h
    obtain ⟨Vm, dm⟩ := q
    simp only at h
    cases hsw : sweep env γ Vm with
    | error e => rw [hsw] at h; simp at h
    | ok pr =>
      obtain ⟨V2, d2⟩ := pr
      rw [hsw] at h
      simp only at h
      obtain ⟨hV, _⟩ := Prod.mk.injEq .. ▸ Except.ok.inj h
      have hF := sweep_ok env γ Vm V2 d2 hsw
      obtain ⟨v, hv, hbel⟩ :=
        forall2_dictGet (fun s v => bellmanValue env γ Vm s = .ok v) hF hs
      have hfe : bellmanValue env γ Vm s = .ok (env.reward s) := by
        simp [bellmanValue, hfin]
      have hveq : v = env.reward s := Except.ok.inj (hbel.symm.trans hfe)
      rw [← hV, hv, hveq]

/-- C9: every sweep is a Jacobi-style update: the dictionary a successful
sweep produces has exactly one entry per state of stateSet, in stateSet
order, and each entry holds the Bellman value of its state computed from
the PREVIOUS value function V alone; values already written during the
current sweep are never read, and the solver loop installs the new
dictionary only after the whole sweep has been built. -/
theorem sweep_jacobi (env : Env S A) (γ : ℚ) (V : List (S × ℚ))
    (l : List (S × ℚ)) (d : ℚ) (h : sweep env γ V = .ok (l, d)) :
    l.map Prod.fst = env.stateSet ∧
      List.Forall₂ (fun s p => p.1 = s ∧ bellmanValue env γ V s = .ok p.2)
        env.stateSet l := by
  have hF := sweep_ok env γ V l d h
  exact ⟨forall2_keys (fun s v => bellmanValue env γ V s = .ok v) hF, hF⟩

/-- C10: for every state of stateSet, when construction succeeds,
getAction recomputes over the frozen value function exactly the action the
policy dictionary stores for that state. -/
theorem getAction_matches_policy (env : Env S A) (γ ε : ℚ) (fuel : ℕ)
    (ag : AgentT S A) (s : S) (h : agentInit env γ ε fuel = .ok ag)
    (hs : s ∈ env.stateSet) :
    (getAction env ag s).toOption = dictGet ag.policy s := by
  simp only [agentInit] at h
  cases hV : solveVF env γ ε fuel with
  | error e => rw [hV] at h; simp at h
  | ok V =>
    rw [hV] at h
    simp only at h
    cases hp : buildPolicy env V with
    | error e => rw [hp] at h; simp at h
    | ok p =>
      rw [hp] at h
      simp only at h
      have hag : ag = ⟨V, p⟩ := (Except.ok.inj h).symm
      subst hag
      obtain ⟨oa, u, hamEU, hlook⟩ := buildPolicy_lookup env V p hp s hs
      simp [getAction, hamEU, hlook, Except.toOption]

/-- When both dictionaries hold every state of the remaining list, the
inner sum completes and adds one product per state of that list. -/
lemma expectedUtilityAux_covered (t V : List (S × ℚ)) :
    ∀ (lst : List S) (acc : ℚ),
      (∀ s2 ∈ lst, (dictGet t s2).isSome ∧ (dictGet V s2).isSome) →
      expectedUtilityAux t V lst acc =
        .ok (acc +
          (lst.map (fun s2 =>
            ((dictGet t s2).getD 0) * ((dictGet V s2).getD 0))).sum) := by
  intro lst
  induction lst with
  | nil => intro acc _; simp [expectedUtilityAux]
  | cons s0 lst ih =>
    intro acc hcov
    obtain ⟨hps, hvs⟩ := hcov s0 (by simp)
    obtain ⟨p, hp⟩ := Option.isSome_iff_exists.mp hps
    obtain ⟨v, hv⟩ := Option.isSome_iff_exists.mp hvs
    simp only [expectedUtilityAux, hp, hv]
    rw [ih (acc + p * v) (fun s2 hs2 => hcov s2 (by simp [hs2]))]
    simp only [List.map_cons, List.sum_cons, hp, hv, Option.getD_some]
    congr 1
    ring

/-- When the transition dictionary omits any state of the remaining list,
the inner sum raises KeyError. -/
lemma expectedUtilityAux_missing (t V : List (S × ℚ)) :
    ∀ (lst : List S) (acc : ℚ),
      (∃ s2 ∈ lst, dictGet t s2 = none) →
      expectedUtilityAux t V lst acc = .error .keyError := by
  intro lst
  induction lst with
  | nil =>
    rintro acc ⟨s2, hs2, _⟩
    cases hs2
  | cons s0 lst ih =>
    rintro acc ⟨s2, hs2, hnone⟩
    cases hp : dictGet t s0 with
    | none => simp [expectedUtilityAux, hp]
    | some p =>
      cases hv : dictGet V s0 with
      | none => simp [expectedUtilityAux, hp, hv]
      | some v =>
        simp only [expectedUtilityAux, hp, hv]
        apply ih
        rcases List.mem_cons.mp hs2 with heq | hmem
        · rw [heq, hp] at hnone
          cases hnone
        · exact ⟨s2, hmem, hnone⟩

/-- C2 (amended): the Bellman inner sum ranges over every state of
stateSet, indexing the transition dictionary and the value dictionary
directly: when both dictionaries hold every state of stateSet the sum is
the sum over stateSet of T(s, a, s2) * V(s2); when the transition
dictionary omits some state of stateSet the computation raises KeyError
instead of treating the state as probability 0. -/
theorem expectedUtility_sums_over_stateSet (env : Env S A)
    (V : List (S × ℚ)) (s : S) (a : A) :
    ((∀ s2 ∈ env.stateSet,
        (dictGet (env.transition s a) s2).isSome ∧ (dictGet V s2).isSome) →
      expectedUtility env V s a =
        .ok ((env.stateSet.map (fun s2 =>
          ((dictGet (env.transition s a) s2).getD 0) *
            ((dictGet V s2).getD 0))).sum)) ∧
    ((∃ s2 ∈ env.stateSet, dictGet (env.transition s a) s2 = none) →
      expectedUtility env V s a = .error .keyError) := by
  constructor
  · intro h
    have := expectedUtilityAux_covered (env.transition s a) V env.stateSet 0 h
    simpa [expectedUtility] using this
  · intro h
    exact expectedUtilityAux_missing (env.transition s a) V env.stateSet 0 h

/-- C3 (amended): with an empty action set, the best-action computation
completes without raising anything and returns best_action None with the
untouched initial utility -inf; no NoFeasibleActionError exists in the
code. -/
theorem amEU_empty_actionSet (env : Env S A) (V : List (S × ℚ)) (s : S)
    (h : env.actionSet = []) :
    actionMaximumExpectedUtility env V s = .ok (none, none) := by
  simp [actionMaximumExpectedUtility, h, amEUAux]

/-- An error escaping the inner sum is always KeyError. -/
lemma expectedUtilityAux_error (t V : List (S × ℚ)) :
    ∀ (lst : List S) (acc : ℚ) (e : PyError),
      expectedUtilityAux t V lst acc = .error e → e = .keyError := by
  intro lst
  induction lst with
  | nil => intro acc e h; simp [expectedUtilityAux] at h
  | cons s0 lst ih =>
    intro acc e h
    simp only [expectedUtilityAux] at h
    cases hp : dictGet t s0 with
    | none =>
      rw [hp] at h
      simp only at h
      exact (Except.error.inj h).symm
    | some p =>
      rw [hp] at h
      simp only at h
      cases hv : dictGet V s0 with
      | none =>
        rw [hv] at h
        simp only at h
        exact (Except.error.inj h).symm
      | some v =>
        rw [hv] at h
        simp only at h
        exact ih _ _ h

/-- An error escaping the best-action computation is always KeyError. -/
lemma amEUAux_error (env : Env S A) (V : List (S × ℚ)) (s : S) :
    ∀ (lst : List A) (b : Option A) (bu : Option ℚ) (e : PyError),
      amEUAux env V s lst b bu = .error e → e = .keyError := by
  intro lst
  induction lst with
  | nil => intro b bu e h; simp [amEUAux] at h
  | cons a lst ih =>
    intro b bu e h
    simp only [amEUAux] at h
    cases hu : expectedUtility env V s a with
    | error e0 =>
      rw [hu] at h
      simp only at h
      have he : e0 = e := Except.error.inj h
      rw [← he]
      exact expectedUtilityAux_error (env.transition s a) V env.stateSet 0 e0 hu
    | ok u =>
      rw [hu] at h
      simp only at h
      split at h
      · exact ih _ _ _ h
      · exact ih _ _ _ h

/-- C5 (amended): getAction recomputes the best action from the frozen
value function instead of reading the policy dictionary; the only
exception it can propagate, for any state whatsoever, is KeyError from
indexing a dictionary; no UnknownStateError exists in the code. -/
theorem getAction_error_is_keyError (env : Env S A) (ag : AgentT S A)
    (s : S) (e : PyError) (h : getAction env ag s = .error e) :
    e = .keyError := by
  simp only [getAction] at h
  cases hA : actionMaximumExpectedUtility env ag.valueUtility s with
  | error e0 =>
    rw [hA] at h
    simp only at h
    have he : e0 = e := Except.error.inj h
    rw [← he]
    exact amEUAux_error env ag.valueUtility s env.actionSet none none e0 hA
  | ok pr =>
    rw [hA] at h
    obtain ⟨oa, ou⟩ := pr
    simp at h

/-- C1: Scenario A evaluated on the code: construction succeeds and
returns V(s1) = 10 and the policy s0 to action 0 as the spec expects, but
the loop stops right after the first sweep (whose non-terminal delta is 0,
the terminal jump 0 to 10 being excluded from delta), leaving
V(s0) = 0 instead of converging to 9; the second sweep, which the stopping
rule never runs, would have produced V(s0) = 9. -/
theorem scenarioA_stops_after_first_sweep_with_V0_zero :
    agentInit envA (9/10) (1/100) 20 = .ok agentA ∧
    traj envA (9/10) 1 = .ok ([(0, 0), (1, 10)], some 0) ∧
    traj envA (9/10) 2 = .ok ([(0, 9), (1, 10)], some 9) ∧
    dictGet agentA.valueUtility 0 = some 0 ∧
    dictGet agentA.valueUtility 1 = some 10 ∧
    dictGet agentA.policy 0 = some (some 0) := by
  refine ⟨?_, ?_, ?_, ?_, ?_, ?_⟩ <;>
    norm_num [agentInit, solveVF, solveLoop, sweep, sweepAux, initVF,
      contCond, buildPolicy, buildPolicyAux, actionMaximumExpectedUtility,
      amEUAux, expectedUtility, expectedUtilityAux, dictGet, traj, envA,
      agentA]

/-- C4 (counterexample): constructing the solver on Scenario A with
discount factor 1 raises nothing: the loop runs (the returned value
function differs from the all-zero initial one, so a sweep executed) and
construction returns normally; no InvalidDiscountFactor is raised before
any sweep, or at all. -/
theorem discount_one_constructs_without_error :
    agentInit envA 1 (1/100) 5 = .ok agentA ∧
    agentA.valueUtility ≠ initVF envA := by
  constructor
  · norm_num [agentInit, solveVF, solveLoop, sweep, sweepAux, initVF,
      contCond, buildPolicy, buildPolicyAux, actionMaximumExpectedUtility,
      amEUAux, expectedUtility, expectedUtilityAux, dictGet, envA, agentA]
  · norm_num [agentA, initVF, envA]

/-- C4 (amended): the constructor validates nothing about the discount
factor; with discount factor 0 the division in the while-condition raises
ZeroDivisionError (not InvalidDiscountFactor), for every environment,
error rate and fuel. -/
theorem discount_zero_raises_zeroDivisionError (env : Env S A) (ε : ℚ)
    (fuel : ℕ) :
    agentInit env 0 ε fuel = .error .zeroDivisionError := by
  simp [agentInit, solveVF]

/-- C6 (counterexample): the transition probabilities of envC6 for
(state 0, action 0) sum to one half, yet solver construction performs no
validation: it runs the sweep loop and returns normally, with no
MalformedTransitionError before the sweeps or at all. -/
theorem malformed_transition_constructs_without_error :
    transitionProbSum envC6 0 0 = 1/2 ∧
    agentInit envC6 (9/10) (1/100) 5 =
      .ok ⟨[(0, 0), (1, 10)], [(0, some 0), (1, some 0)]⟩ := by
  constructor
  · norm_num [transitionProbSum, envC6]
  · norm_num [agentInit, solveVF, solveLoop, sweep, sweepAux, initVF,
      contCond, buildPolicy, buildPolicyAux, actionMaximumExpectedUtility,
      amEUAux, expectedUtility, expectedUtilityAux, dictGet, envC6]

/-- C6 (amended): no eager (or any) validation of transition-probability
sums exists: construction on the malformed environment succeeds for every
positive error rate and every sufficient fuel, using the malformed
probabilities as they are. -/
theorem malformed_transition_accepted_any_tolerance (ε : ℚ) (fuel : ℕ)
    (hε : 0 < ε) (hf : 1 ≤ fuel) :
    agentInit envC6 (9/10) ε fuel =
      .ok ⟨[(0, 0), (1, 10)], [(0, some 0), (1, some 0)]⟩ := by
  obtain ⟨f, rfl⟩ : ∃ f, fuel = f + 1 := ⟨fuel - 1, by omega⟩
  have hsw : sweep envC6 (9/10) (initVF envC6) = .ok ([(0, 0), (1, 10)], 0) := by
    norm_num [sweep, sweepAux, initVF, actionMaximumExpectedUtility, amEUAux,
      expectedUtility, expectedUtilityAux, dictGet, envC6]
  have hcond : contCond (ε * (1 - 9/10) / (9/10)) (some 0) = false := by
    simp only [contCond, decide_eq_false_iff_not, not_lt]
    have h0 : (0:ℚ) ≤ ε := le_of_lt hε
    norm_num
    linarith
  have h1 : contCond (ε * (1 - 9/10) / (9/10)) none = true := rfl
  have hloop : solveLoop envC6 (9/10) (ε * (1 - 9/10) / (9/10)) (f + 1)
      (initVF envC6) none = .ok [(0, 0), (1, 10)] := by
    simp only [solveLoop, h1, if_true, hsw]
    exact solveLoop_stopped envC6 (9/10) _ f [(0, 0), (1, 10)] (some 0) hcond
  have hbp : buildPolicy envC6 [(0, 0), (1, 10)] =
      .ok [(0, some 0), (1, some 0)] := by
    norm_num [buildPolicy, buildPolicyAux, actionMaximumExpectedUtility,
      amEUAux, expectedUtility, expectedUtilityAux, dictGet, envC6]
  have h910 : (9/10 : ℚ) ≠ 0 := by norm_num
  simp only [agentInit, solveVF, if_neg h910, hloop, hbp]

/-- C2 (counterexample): the transition dictionary of envC2 omits state 0,
a member of stateSet; the claim says the sum should then skip state 0 and
succeed, but the code raises KeyError. -/
theorem transition_missing_state_raises_keyError :
    dictGet (envC2.transition 0 0) 0 = none ∧
    (0 : ℕ) ∈ envC2.stateSet ∧
    expectedUtility envC2 (initVF envC2) 0 0 = .error .keyError := by
  refine ⟨by simp [envC2, dictGet], by simp [envC2], ?_⟩
  norm_num [expectedUtility, expectedUtilityAux, dictGet, initVF, envC2]

/-- C2 (witness): the amended statement applied at Scenario A (both
dictionaries cover stateSet: the sum completes) and at envC2 (the
transition dictionary omits state 0: KeyError). -/
theorem expectedUtility_sums_over_stateSet_witness :
    expectedUtility envA (initVF envA) 0 0 =
      .ok ((envA.stateSet.map (fun s2 =>
        ((dictGet (envA.transition 0 0) s2).getD 0) *
          ((dictGet (initVF envA) s2).getD 0))).sum) ∧
    expectedUtility envC2 (initVF envC2) 0 0 = .error .keyError := by
  constructor
  · apply (expectedUtility_sums_over_stateSet envA (initVF envA) 0 0).1
    intro s2 hs2
    fin_cases hs2 <;> simp [envA, initVF, dictGet]
  · apply (expectedUtility_sums_over_stateSet envC2 (initVF envC2) 0 0).2
    exact ⟨0, by simp [envC2], by simp [envC2, dictGet]⟩

/-- C3 (counterexample): state 0 of envD is non-terminal and its action
set is empty, yet the Bellman best-action computation does not fail at
all: it returns (None, -inf) as an ordinary value. -/
theorem empty_actionSet_best_action_no_failure :
    envD.actionSet = [] ∧
    (0 : ℕ) ∈ envD.stateSet ∧
    (0 : ℕ) ∉ envD.finalStateSet ∧
    actionMaximumExpectedUtility envD (initVF envD) 0 = .ok (none, none) := by
  refine ⟨rfl, by simp [envD], by simp [envD], ?_⟩
  simp [actionMaximumExpectedUtility, amEUAux, envD]

/-- C3 (witness): the amended statement applied to envD at a concrete
value function. -/
theorem amEU_empty_actionSet_witness :
    actionMaximumExpectedUtility envD [(0, 5)] 0 = .ok (none, none) :=
  amEU_empty_actionSet envD [(0, 5)] 0 rfl

/-- C5 (counterexample): state 2 is absent from stateSet and hence from
the policy of the Scenario A agent, yet getAction does not fail with any
error: it recomputes the best action and returns it. -/
theorem getAction_absent_state_no_failure :
    agentInit envA (9/10) (1/100) 20 = .ok agentA ∧
    dictGet agentA.policy 2 = none ∧
    getAction envA agentA 2 = .ok (some 0) := by
  refine ⟨?_, by simp [agentA, dictGet], ?_⟩
  · norm_num [agentInit, solveVF, solveLoop, sweep, sweepAux, initVF,
      contCond, buildPolicy, buildPolicyAux, actionMaximumExpectedUtility,
      amEUAux, expectedUtility, expectedUtilityAux, dictGet, envA, agentA]
  · norm_num [getAction, actionMaximumExpectedUtility, amEUAux,
      expectedUtility, expectedUtilityAux, dictGet, envA, agentA]

/-- C5 (witness): a state whose transition row is missing from the
dictionary makes getAction raise, and the amended statement identifies the
exception as KeyError. -/
theorem getAction_error_is_keyError_witness :
    ∃ e, getAction envC2 ⟨initVF envC2, []⟩ 0 = .error e ∧
      e = PyError.keyError := by
  have h : getAction envC2 ⟨initVF envC2, []⟩ 0 = .error .keyError := by
    norm_num [getAction, actionMaximumExpectedUtility, amEUAux,
      expectedUtility, expectedUtilityAux, dictGet, initVF, envC2]
  exact ⟨.keyError, h,
    getAction_error_is_keyError envC2 ⟨initVF envC2, []⟩ 0 .keyError h⟩

/-- C7 (witness): on Scenario A the loop stops at sweep count 1: the first
sweep has delta 0, below the threshold, and every earlier point (only the
initial one, whose delta is inf) passes the continuation condition. -/
theorem stopping_rule_iff_witness :
    ∃ n, n ≤ 5 ∧ ∃ d, traj envA (9/10) n = .ok ([(0, 0), (1, 10)], d) ∧
      contCond ((1/100) * (1 - 9/10) / (9/10)) d = false ∧
      ∀ k p, k < n → traj envA (9/10) k = .ok p →
        contCond ((1/100) * (1 - 9/10) / (9/10)) p.2 = true := by
  apply (stopping_rule_iff envA (9/10) (1/100) 5 [(0, 0), (1, 10)]
    (by norm_num) (by norm_num) (by norm_num)).mp
  norm_num [solveVF, solveLoop, sweep, sweepAux, initVF, contCond,
    actionMaximumExpectedUtility, amEUAux, expectedUtility,
    expectedUtilityAux, dictGet, envA]

/-- C8 (witness): after the first sweep of Scenario A, the terminal
state 1 stores exactly its reward. -/
theorem terminal_pinned_witness :
    dictGet [((0:ℕ), (0:ℚ)), (1, 10)] 1 = some (envA.reward 1) := by
  apply terminal_pinned envA (9/10) 1 [(0, 0), (1, 10)] (some 0) 1
    (le_refl 1) ?_ (by simp [envA]) (by simp [envA])
  norm_num [traj, sweep, sweepAux, initVF, actionMaximumExpectedUtility,
    amEUAux, expectedUtility, expectedUtilityAux, dictGet, envA]

/-- C9 (witness): the first sweep of Scenario A, entry by entry: keys are
stateSet in order and every entry is the Bellman value of its state under
the previous (all-zero) value function. -/
theorem sweep_jacobi_witness :
    ([((0:ℕ), (0:ℚ)), (1, 10)].map Prod.fst = envA.stateSet) ∧
      List.Forall₂
        (fun s p => p.1 = s ∧
          bellmanValue envA (9/10) (initVF envA) s = .ok p.2)
        envA.stateSet [(0, 0), (1, 10)] := by
  apply sweep_jacobi envA (9/10) (initVF envA) [(0, 0), (1, 10)] 0
  norm_num [sweep, sweepAux, initVF, actionMaximumExpectedUtility, amEUAux,
    expectedUtility, expectedUtilityAux, dictGet, envA]

/-- C10 (witness): on the Scenario A agent, getAction at state 0 agrees
with the stored policy entry. -/
theorem getAction_matches_policy_witness :
    (getAction envA agentA 0).toOption = dictGet agentA.policy 0 := by
  apply getAction_matches_policy envA (9/10) (1/100) 20 agentA 0 ?_
    (by simp [envA])
  norm_num [agentInit, solveVF, solveLoop, sweep, sweepAux, initVF,
    contCond, buildPolicy, buildPolicyAux, actionMaximumExpectedUtility,
    amEUAux, expectedUtility, expectedUtilityAux, dictGet, envA, agentA]

/-- C6 (witness for the amended statement): the malformed environment is
accepted at the concrete tolerance 1/100 with fuel 5. -/
theorem malformed_transition_accepted_witness :
    agentInit envC6 (9/10) (1/100) 5 =
      .ok ⟨[(0, 0), (1, 10)], [(0, some 0), (1, some 0)]⟩ :=
  malformed_transition_accepted_any_tolerance (1/100) 5 (by norm_num)
    (by norm_num)

/-- C4 (witness for the amended statement): discount factor 0 on
Scenario A raises ZeroDivisionError. -/
theorem discount_zero_raises_zeroDivisionError_witness :
    agentInit envA 0 (1/100) 5 = .error .zeroDivisionError :=
  discount_zero_raises_zeroDivisionError envA (1/100) 5

end MDPVI
